import Mathlib

/-!
# Verification of the `ts_query_ls` diagnostics engine

A shallow embedding of `src/handlers/diagnostic.rs`: the diagnostic data
model, the pattern-scan cache, the per-site checks driven by the static
query catalog, the predicate/directive validator, and the recursive import
walker.  External collaborators (the tree-sitter compiler `Query::new`, the
URI-to-basename derivation) are modelled as function parameters; node
attributes read from the syntax tree (texts, ranges, child counts) are
carried as fields of the site values the scan dispatches on.

LSP severities are encoded by their wire numerals: ERROR = 1, WARNING = 2,
INFORMATION = 3, HINT = 4 (smaller is more severe).  LSP positions are
`u32` on the wire; the two places where the source mutates a column with
`-= 1` / `+= 1` are modelled with explicit wrap-around modulo `2^32`.
-/

namespace TsQueryLs

/-- LSP position: zero-based line and (u32) character column. -/
structure Position where
  line : Nat
  character : Nat
deriving DecidableEq, Repr

/-- LSP range; `stop` stands for the source's `end` field (a Lean keyword). -/
structure Range where
  start : Position
  stop : Position
deriving DecidableEq, Repr

/-- The default range (`Range::default()`): all zeroes. -/
def Range.default : Range := ⟨⟨0, 0⟩, ⟨0, 0⟩⟩

/-- The closed set of code-action payload tags (`CodeActions`). -/
inductive CodeActions where
  | PrefixUnderscore
  | Remove
  | RemoveBackslash
  | Trim
  | Enquote
deriving DecidableEq, Repr

/-- One entry of a diagnostic's related-information list. -/
structure RelatedInfo where
  uri : String
  range : Range
  message : String
deriving DecidableEq, Repr

/-- The LSP `Diagnostic` structure, restricted to the fields this engine
populates.  `severity` uses the LSP numerals (1 = ERROR .. 4 = HINT);
`tags` holds LSP tag numerals (1 = UNNECESSARY). -/
structure Diagnostic where
  message : String
  severity : Option Nat := none
  range : Range
  tags : Option (List Nat) := none
  relatedInformation : Option (List RelatedInfo) := none
  data : Option CodeActions := none
deriving DecidableEq, Repr

def ERROR_SEVERITY : Option Nat := some 1
def WARNING_SEVERITY : Option Nat := some 2
def HINT_SEVERITY : Option Nat := some 4

/-- Kinds of `tree_sitter::QueryError` (`QueryErrorKind`). -/
inductive QueryErrorKind where
  | Syntax
  | NodeType
  | Field
  | Capture
  | Predicate
  | Structure
  | Language
deriving DecidableEq, Repr

/-- The fields of `tree_sitter::QueryError` the source inspects. -/
structure QueryError where
  kind : QueryErrorKind
  offset : Nat
deriving DecidableEq, Repr

/-- `get_pattern_diagnostic`: compile the pattern text and keep only the
byte offset of a `Structure`-kind error.  `Query::new` for a fixed
`Language` is the external compiler, modelled by the `compile` argument. -/
def get_pattern_diagnostic (compile : String → Except QueryError Unit)
    (pattern_text : String) : Option Nat :=
  match compile pattern_text with
  | .error { kind := .Structure, offset := offset } => some offset
  | _ => none

/-- The `QUERY_SCAN_CACHE`: an association list standing for the concurrent
map `(language name, pattern text) → optional byte offset`; newest entry
first. -/
abbrev Cache := List ((String × String) × Option Nat)

/-- `DashMap::get` on the modelled cache. -/
def cacheGet (c : Cache) (k : String × String) : Option (Option Nat) :=
  match c with
  | [] => none
  | (k', v) :: rest => if k' = k then some v else cacheGet rest k

/-- `get_pattern_diagnostic_cached`: consult the cache under the key
`(language_name, pattern_text)`; on a miss compute the fresh result and
insert it.  The state-passing pair returns the (possibly grown) cache.
`compile lang` models `Query::new(&language, ·)` for the `Language` handle
registered under `lang`. -/
def get_pattern_diagnostic_cached (compile : String → String → Except QueryError Unit)
    (language_name pattern_text : String) (c : Cache) : Option Nat × Cache :=
  let pattern_key := (language_name, pattern_text)
  match cacheGet c pattern_key with
  | some cached_diag => (cached_diag, c)
  | none =>
    let byte_offset := get_pattern_diagnostic (compile language_name) pattern_text
    (byte_offset, (pattern_key, byte_offset) :: c)

/-- Cache states reachable from the empty cache by prior calls of the
cached scan (with arbitrary keys, against a fixed compiler). -/
inductive CacheReachable (compile : String → String → Except QueryError Unit) : Cache → Prop
  | empty : CacheReachable compile []
  | step (c : Cache) (n t : String) : CacheReachable compile c →
      CacheReachable compile (get_pattern_diagnostic_cached compile n t c).2

/-! ## Options and predicate schema (`ts_query_ls::Options`) -/

/-- `PredicateParameterType`; its `Display` gives the strings used in
diagnostic messages. -/
inductive PredicateParameterType where
  | capture
  | string
  | any
deriving DecidableEq, Repr

/-- `Display for PredicateParameterType`. -/
def PredicateParameterType.display : PredicateParameterType → String
  | .capture => "capture"
  | .string => "string"
  | .any => "any"

/-- `PredicateParameterArity`. -/
inductive PredicateParameterArity where
  | Required
  | Optional
  | Variadic
deriving DecidableEq, Repr

/-- One parameter specification of a predicate/directive schema entry. -/
structure PredicateParameter where
  type_ : PredicateParameterType
  arity : PredicateParameterArity
deriving DecidableEq, Repr

/-- A predicate/directive schema entry (only its parameter list matters to
the validator). -/
structure Predicate where
  parameters : List PredicateParameter
deriving DecidableEq, Repr

/-- `StringArgumentStyle`. -/
inductive StringArgumentStyle where
  | PreferQuoted
  | PreferUnquoted
  | Any
deriving DecidableEq, Repr

/-- Association-list lookup standing for `BTreeMap::get` / `HashMap::get`. -/
def assocGet {α : Type} (m : List (String × α)) (k : String) : Option α :=
  match m with
  | [] => none
  | (k', v) :: rest => if k' = k then some v else assocGet rest k

/-- The slice of `Options` the diagnostics engine reads.  `valid_captures`
maps a grammar basename to the list of supported capture suffixes (only key
membership of the inner `BTreeMap` is consulted). -/
structure Options where
  valid_captures : List (String × List String)
  valid_predicates : List (String × Predicate)
  valid_directives : List (String × Predicate)
  string_argument_style : StringArgumentStyle
  warn_unused_underscore_captures : Bool
deriving DecidableEq, Repr

/-! ## Language data (`LanguageData`) -/

/-- A `(label, named)` grammar symbol. -/
structure SymbolInfo where
  label : String
  named : Bool
deriving DecidableEq, Repr

/-- The introspection tables of `LanguageData`.  `hasLanguage` records
whether the compiled grammar handle (`language: Option<Language>`) is
present; the handle itself is folded into the ambient `compile` function,
keyed by `name`. -/
structure LanguageData where
  name : String
  hasLanguage : Bool
  symbols_set : List SymbolInfo
  fields_set : List String
  supertype_map : List (SymbolInfo × List SymbolInfo)
deriving DecidableEq, Repr

/-- `HashMap::get` on the supertype map. -/
def supertypeGet (m : List (SymbolInfo × List SymbolInfo)) (k : SymbolInfo) :
    Option (List SymbolInfo) :=
  match m with
  | [] => none
  | (k', v) :: rest => if k' = k then some v else supertypeGet rest k

/-! ## Helpers translated from the source -/

/-- `remove_unnecessary_escapes`, on the character list of the input. -/
def removeUnnecessaryEscapesAux : List Char → List Char
  | [] => []
  | '\\' :: rest =>
    match rest with
    | c :: rest' =>
      if c = '"' ∨ c = '\\' ∨ c = 'n' ∨ c = 'r' ∨ c = 't' ∨ c = '0' then
        '\\' :: c :: removeUnnecessaryEscapesAux rest'
      else
        c :: removeUnnecessaryEscapesAux rest'
    | [] => []
  | c :: rest => c :: removeUnnecessaryEscapesAux rest

/-- `remove_unnecessary_escapes`: drop backslashes not introducing one of
the recognized escapes `\" \\ \n \r \t \0`. -/
def remove_unnecessary_escapes (input : String) : String :=
  String.mk (removeUnnecessaryEscapesAux input.toList)

/-- First character class of `IDENTIFIER_REGEX` (`[a-zA-Z0-9_-]`). -/
def isIdentFirst (c : Char) : Bool :=
  c.isAlpha || c.isDigit || c = '_' || c = '-'

/-- Continuation character class of `IDENTIFIER_REGEX` (`[a-zA-Z0-9_.-]`). -/
def isIdentRest (c : Char) : Bool :=
  isIdentFirst c || c = '.'

/-- `IDENTIFIER_REGEX.is_match`: full match of
`^[a-zA-Z0-9_-][a-zA-Z0-9_.-]*$`. -/
def identifierRegexMatch (s : String) : Bool :=
  match s.toList with
  | [] => false
  | c :: rest => isIdentFirst c && rest.all isIdentRest

/-- `2^32`, the modulus of the `u32` columns of LSP positions. -/
def U32_MOD : Nat := 4294967296

/-- `u32` wrapping decrement, modelling `character -= 1`. -/
def u32SubOne (c : Nat) : Nat := (c + (U32_MOD - 1)) % U32_MOD

/-- `u32` wrapping increment, modelling `character += 1`. -/
def u32AddOne (c : Nat) : Nat := (c + 1) % U32_MOD

/-! ## Predicate validation (`validate_predicate`) -/

/-- One child of the `(parameters …)` node, as the validator reads it:
whether tree-sitter marked it missing, its node kind, text and range. -/
structure Param where
  isMissing : Bool
  kind : String
  text : String
  range : Range
deriving DecidableEq, Repr

/-- The `param_type_mismatch` closure: a capture argument against a
`string` spec, or a string argument against a `capture` spec. -/
def param_type_mismatch (is_capture : Bool) (param_spec : PredicateParameter) : Bool :=
  (is_capture && param_spec.type_ = PredicateParameterType.string)
    || (!is_capture && param_spec.type_ = PredicateParameterType.capture)

/-- The `type_mismatch_diag` closure. -/
def type_mismatch_diag (is_capture : Bool) (param : Param)
    (param_spec : PredicateParameter) : Diagnostic :=
  { message := "Parameter type mismatch: expected \"" ++ param_spec.type_.display
      ++ "\", got \"" ++ (if is_capture then "capture" else "string") ++ "\""
    severity := WARNING_SEVERITY
    range := param.range }

/-- The parameter loop of `validate_predicate`: walk the parameter nodes,
consuming one spec per parameter (`param_spec_iter.next()`), remembering the
previously consumed spec (`prev_param_spec`) for the variadic tail; a
missing parameter node breaks out of the loop.  Returns the pushed
diagnostics together with the unconsumed tail of the spec iterator. -/
def validateParamsLoop (params : List Param) (specs : List PredicateParameter)
    (prev_param_spec : PredicateParameter) : List Diagnostic × List PredicateParameter :=
  match params with
  | [] => ([], specs)
  | param :: rest =>
    if param.isMissing then
      ([], specs)
    else
      let is_capture := param.kind = "capture"
      match specs with
      | param_spec :: specs' =>
        let here :=
          if param_type_mismatch is_capture param_spec then
            [type_mismatch_diag is_capture param param_spec]
          else []
        let (ds, remaining) := validateParamsLoop rest specs' param_spec
        (here ++ ds, remaining)
      | [] =>
        if prev_param_spec.arity ≠ PredicateParameterArity.Variadic then
          let here := [({ message := "Unexpected parameter: \"" ++ param.text ++ "\""
                          severity := WARNING_SEVERITY
                          range := param.range } : Diagnostic)]
          let (ds, remaining) := validateParamsLoop rest [] prev_param_spec
          (here ++ ds, remaining)
        else
          let here :=
            if param_type_mismatch is_capture prev_param_spec then
              [type_mismatch_diag is_capture param prev_param_spec]
            else []
          let (ds, remaining) := validateParamsLoop rest [] prev_param_spec
          (here ++ ds, remaining)

/-- `validate_predicate`: check the call's parameters against the schema's
parameter specs.  `params_range` is the range of the `(parameters …)` node
(`predicate_node.parent().named_child(2)`); `call_range` is the range of the
whole predicate call (`predicate_node.parent()`). -/
def validate_predicate (params : List Param) (predicate_params : List PredicateParameter)
    (params_range call_range : Range) : List Diagnostic :=
  match predicate_params with
  | [] =>
    [{ message := "Parameter specification must not be empty"
       severity := WARNING_SEVERITY
       range := params_range }]
  | first :: _ =>
    let (ds, remaining) := validateParamsLoop params predicate_params first
    ds ++
      match remaining with
      | { type_ := type_, arity := PredicateParameterArity.Required } :: _ =>
        [{ message := "Missing parameter of type \"" ++ type_.display ++ "\""
           severity := WARNING_SEVERITY
           range := call_range }]
      | _ => []

/-! ## Sites of the AST scan

`DIAGNOSTICS_QUERY` (the static catalog) tags AST nodes of interest with a
capture name; the scan loop dispatches on that name.  A `Site` value is one
tagged capture, carrying the node attributes the corresponding check reads:
the node's text (`capture.node.text(rope)`), its LSP range, and per-kind
payloads replacing the tree lookups the source performs (helper-query
matches within the enclosing top-level pattern, the next named sibling of a
supertype node, the children of a `(parameters …)` node). -/

inductive Site where
  /-- `node.named` capture: a named node literal. -/
  | nodeNamed (text : String) (range : Range)
  /-- `node.anonymous` capture: an anonymous node literal. -/
  | nodeAnonymous (text : String) (range : Range)
  /-- `supertype` capture.  `subtypeText`/`subtypeRange` are the text and
  range of `capture.node.next_named_sibling()`, which the source unwraps
  (the embedding takes the sibling as given). -/
  | supertype (text : String) (range : Range) (subtypeText : String) (subtypeRange : Range)
  /-- `field` capture: a field name. -/
  | field (text : String) (range : Range)
  /-- `error` capture: an ERROR node. -/
  | error (range : Range)
  /-- `missing` capture; `nodeKind` is `capture.node.kind()`. -/
  | missing (nodeKind : String) (range : Range)
  /-- `capture.reference` capture; `enclosingDefs` lists the texts of the
  `CAPTURE_DEFINITIONS_QUERY` captures inside the top-level pattern
  enclosing the reference (`root.child_with_descendant(node)`), in match
  order. -/
  | captureReference (text : String) (range : Range) (enclosingDefs : List String)
  /-- `capture.definition` capture; `enclosingRefs` lists the texts of the
  `CAPTURE_REFERENCES_QUERY` captures inside the enclosing top-level
  pattern, in match order. -/
  | captureDefinition (text : String) (range : Range) (enclosingRefs : List String)
  /-- `predicate` capture: the name node of a `#name?` call, with the
  children of its `(parameters …)` sibling, that node's range, and the
  whole call's range. -/
  | predicate (text : String) (range : Range) (params : List Param)
      (paramsRange callRange : Range)
  /-- `directive` capture: the name node of a `#name!` call. -/
  | directive (text : String) (range : Range) (params : List Param)
      (paramsRange callRange : Range)
  /-- `escape` capture: an escape sequence inside a string. -/
  | escape (text : String) (range : Range)
  /-- `pattern` capture: a top-level pattern; `hasCaptures` records whether
  `CAPTURES_QUERY` has at least one match inside it. -/
  | pattern (range : Range) (hasCaptures : Bool)
  /-- `string` capture: a string argument node; `namedChildCount` is
  `capture.node.named_child_count()`. -/
  | string (text : String) (range : Range) (namedChildCount : Nat)
  /-- `identifier` capture: an unquoted string argument. -/
  | identifier (range : Range)
deriving DecidableEq, Repr

/-- The `valid`-flag search loop shared by the `capture.reference` and
`capture.definition` arms: scan the helper-query capture texts for one
equal to the site's text, breaking at the first hit. -/
def textSearchLoop (caps : List String) (capture_text : String) : Bool :=
  match caps with
  | [] => false
  | cap :: rest => if cap = capture_text then true else textSearchLoop rest capture_text

/-- The body of the scan's `match capture_name { … }` for a single tagged
site: the list of diagnostics pushed for it, in push order.
`language_data` is the optional `LanguageData` (its absence makes the
`symbols`/`fields`/`supertypes` tables `None`); `valid_captures` is
`options.valid_captures.get(&uri_to_basename(uri))`. -/
def siteDiagnostics (options : Options) (language_data : Option LanguageData)
    (valid_captures : Option (List String)) : Site → List Diagnostic
  | .nodeNamed text range =>
    match language_data with
    | none => []
    | some ld =>
      if { label := text, named := true : SymbolInfo } ∈ ld.symbols_set then []
      else
        [{ message := "Invalid node type: \"" ++ text ++ "\""
           severity := ERROR_SEVERITY
           range := range }]
  | .nodeAnonymous text range =>
    match language_data with
    | none => []
    | some ld =>
      let capture_text := remove_unnecessary_escapes text
      if { label := capture_text, named := false : SymbolInfo } ∈ ld.symbols_set then []
      else
        [{ message := "Invalid node type: \"" ++ capture_text ++ "\""
           severity := ERROR_SEVERITY
           range := range }]
  | .supertype text range subtypeText subtypeRange =>
    match language_data with
    | none => []
    | some ld =>
      let supertype_text := text
      match supertypeGet ld.supertype_map { label := supertype_text, named := true } with
      | some subtypes =>
        let subtype_sym : SymbolInfo := { label := subtypeText, named := true }
        if subtypes ≠ [] ∧ subtype_sym ∉ subtypes then
          [{ message := "Node \"" ++ subtypeText ++ "\" is not a subtype of \""
               ++ supertype_text ++ "\""
             severity := ERROR_SEVERITY
             range := subtypeRange }]
        else if subtypes = [] ∧ subtype_sym ∉ ld.symbols_set then
          [{ message := "Invalid node type: \"" ++ subtypeText ++ "\""
             severity := ERROR_SEVERITY
             range := subtypeRange }]
        else []
      | none =>
        [{ message := "Node \"" ++ supertype_text ++ "\" is not a supertype"
           severity := ERROR_SEVERITY
           range := range }]
  | .field text range =>
    match language_data with
    | none => []
    | some ld =>
      if text ∈ ld.fields_set then []
      else
        [{ message := "Invalid field name: \"" ++ text ++ "\""
           severity := ERROR_SEVERITY
           range := range }]
  | .error range =>
    [{ message := "Invalid syntax", severity := ERROR_SEVERITY, range := range }]
  | .missing nodeKind range =>
    [{ message := "Missing \"" ++ nodeKind ++ "\""
       severity := ERROR_SEVERITY
       range := range }]
  | .captureReference text range enclosingDefs =>
    if textSearchLoop enclosingDefs text then []
    else
      [{ message := "Undeclared capture: \"" ++ text ++ "\""
         severity := ERROR_SEVERITY
         range := range }]
  | .captureDefinition text range enclosingRefs =>
    if text.startsWith "@" then
      let suffix := text.drop 1
      let is_some_and_not_key : Bool :=
        match valid_captures with
        | some c => decide (suffix ∉ c)
        | none => false
      if ¬suffix.startsWith "_" ∧ is_some_and_not_key then
        [{ message := "Unsupported capture name \"" ++ text ++ "\" (fix available)"
           severity := WARNING_SEVERITY
           range := range
           data := some CodeActions.PrefixUnderscore }]
      else if suffix.startsWith "_" ∧ options.warn_unused_underscore_captures then
        if textSearchLoop enclosingRefs text then []
        else
          [{ message := "Unused `_`-prefixed capture (fix available)"
             severity := WARNING_SEVERITY
             range := range
             tags := some [1]
             data := some CodeActions.Remove }]
      else []
    else []
  | .predicate text range params paramsRange callRange =>
    let validator := options.valid_predicates
    if validator = [] then []
    else
      match assocGet validator text with
      | some predicate => validate_predicate params predicate.parameters paramsRange callRange
      | none =>
        [{ message := "Unrecognized predicate \"" ++ text ++ "\""
           severity := WARNING_SEVERITY
           range := range }]
  | .directive text range params paramsRange callRange =>
    let validator := options.valid_directives
    if validator = [] then []
    else
      match assocGet validator text with
      | some predicate => validate_predicate params predicate.parameters paramsRange callRange
      | none =>
        [{ message := "Unrecognized directive \"" ++ text ++ "\""
           severity := WARNING_SEVERITY
           range := range }]
  | .escape text range =>
    match text.toList.drop 1 with
    | [] => []
    | c :: _ =>
      if c = '"' ∨ c = '\\' ∨ c = 'n' ∨ c = 'r' ∨ c = 't' ∨ c = '0' then []
      else
        [{ message := "Unnecessary escape sequence (fix available)"
           severity := WARNING_SEVERITY
           range := range
           data := some CodeActions.RemoveBackslash }]
  | .pattern range hasCaptures =>
    if hasCaptures then []
    else
      [{ message := "This pattern has no captures, and will not be processed"
         range := range
         severity := WARNING_SEVERITY
         tags := some [1]
         data := some CodeActions.Remove }]
  | .string text range namedChildCount =>
    if options.string_argument_style ≠ StringArgumentStyle.PreferUnquoted then []
    else if namedChildCount > 0 ∨ ¬identifierRegexMatch text then []
    else
      let range' : Range :=
        { start := { line := range.start.line, character := u32SubOne range.start.character }
          stop := { line := range.stop.line, character := u32AddOne range.stop.character } }
      [{ message := "Unnecessary quotations (fix available)"
         range := range'
         severity := HINT_SEVERITY
         data := some CodeActions.Trim }]
  | .identifier range =>
    if options.string_argument_style ≠ StringArgumentStyle.PreferQuoted then []
    else
      [{ message := "Unquoted string argument (fix available)"
         range := range
         severity := HINT_SEVERITY
         data := some CodeActions.Enquote }]

/-- The scan loop over the tagged sites: diagnostics are pushed onto the
already-accumulated vector `acc`, one site at a time in match order. -/
def scanLoop (options : Options) (language_data : Option LanguageData)
    (valid_captures : Option (List String)) (sites : List Site)
    (acc : List Diagnostic) : List Diagnostic :=
  match sites with
  | [] => acc
  | site :: rest =>
    scanLoop options language_data valid_captures rest
      (acc ++ siteDiagnostics options language_data valid_captures site)

/-! ## Documents and the diagnostic recursion -/

/-- Document URIs. -/
abbrev Url := String

/-- One entry of `document.imported_uris`: the column span of the import on
line 0 and the optionally resolved target URI. -/
structure ImportEntry where
  startCol : Nat
  endCol : Nat
  uri : Option Url
deriving DecidableEq, Repr

/-- One match of `DEFINITIONS_QUERY` (a top-level pattern definition):
its source text, its start byte, and the translation
`root.named_descendant_for_byte_range(b, b).map(lsp_range).unwrap_or_default()`
of an absolute byte to the narrowest covering node's range. -/
structure PatternDef where
  text : String
  startByte : Nat
  rangeAtByte : Nat → Range

/-- The slice of `DocumentData` the diagnostics engine reads: the
ordered import list, the top-level pattern definitions, and the sites the
`DIAGNOSTICS_QUERY` scan enumerates (tree/rope readings pre-resolved). -/
structure DocumentData where
  imported_uris : List ImportEntry
  patternDefs : List PatternDef
  sites : List Site

/-- The ambient collaborators of the engine: the tree-sitter pattern
compiler keyed by grammar name (`Query::new` against the `Language` handle
registered under that name), the `uri_to_basename` derivation, the server's
document map and the options snapshot. -/
structure Env where
  compile : String → String → Except QueryError Unit
  basename : Url → Option String
  document_map : List (Url × DocumentData)
  options : Options

/-- `document_map.get(uri)`. -/
def documentGet (dm : List (Url × DocumentData)) (u : Url) : Option DocumentData :=
  assocGet dm u

/-- `options.valid_captures.get(&uri_to_basename(uri).unwrap_or_default())`. -/
def validCapturesFor (env : Env) (uri : Url) : Option (List String) :=
  assocGet env.options.valid_captures ((env.basename uri).getD "")

/-- The `spawn_blocking` pattern-validator closure: nothing when language
data (or its compiled grammar handle) is absent; otherwise one
`Invalid pattern structure` diagnostic per definition whose scan reports a
structural error, located at the narrowest node covering the absolute
offset.  The cached scan path is modelled by the fresh computation, which
the cache-determinism theorem proves it equals. -/
def pattern_diagnostics (compile : String → String → Except QueryError Unit)
    (language_data : Option LanguageData) (patternDefs : List PatternDef) :
    List Diagnostic :=
  match language_data with
  | some ld =>
    if ld.hasLanguage then
      patternDefs.filterMap fun d =>
        match get_pattern_diagnostic (compile ld.name) d.text with
        | some offset =>
          let true_offset := offset + d.startByte
          some { message := "Invalid pattern structure"
                 severity := ERROR_SEVERITY
                 range := d.rangeAtByte true_offset }
        | none => none
    else []
  | none => []

/-- The severity fold of the import walker: starting from HINT, take
`min(severity, sev)` over each inner diagnostic carrying a severity, in
order (numerically smaller LSP severities are more severe, so this computes
the maximum severity, as the source comment notes). -/
def foldSeverityLoop (diags : List Diagnostic) (severity : Nat) : Nat :=
  match diags with
  | [] => severity
  | diag :: rest =>
    match diag.severity with
    | some sev => foldSeverityLoop rest (min severity sev)
    | none => foldSeverityLoop rest severity

/-- The number of document-map keys not yet in the seen-set: the measure
that makes the import recursion terminate. -/
def unseenCount (dm : List (Url × DocumentData)) (seen : List Url) : Nat :=
  ((dm.map Prod.fst).filter (fun u => decide (u ∉ seen))).length

/-- A successful association-list lookup means the key occurs in the key
list (supports the termination argument of the import walker). -/
theorem assocGet_mem_of_some {α : Type} {m : List (String × α)} {k : String} {v : α}
    (h : assocGet m k = some v) : k ∈ m.map Prod.fst := by
  induction m with
  | nil => simp [assocGet] at h
  | cons p rest ih =>
    rw [assocGet] at h
    by_cases hk : p.1 = k
    · simp [hk]
    · simp [hk] at h
      simp [ih h]

/-- Growing the seen-set cannot increase the number of unseen documents. -/
theorem unseenCount_le_of_subset {dm : List (Url × DocumentData)} {s s' : List Url}
    (h : s ⊆ s') : unseenCount dm s' ≤ unseenCount dm s := by
  unfold unseenCount
  apply List.Sublist.length_le
  apply List.monotone_filter_right
  intro a ha
  simp only [decide_eq_true_eq] at ha ⊢
  exact fun hmem => ha (h hmem)

/-- Strengthening a `not-member` filter from `seen` to `u :: seen` with
`u` occurring in the list and unseen strictly shrinks the filtered
length. -/
theorem filter_notMem_cons_lt {l : List Url} {u : Url} {seen : List Url}
    (hmem : u ∈ l) (hnot : u ∉ seen) :
    (l.filter (fun x => decide (x ∉ (u :: seen)))).length
      < (l.filter (fun x => decide (x ∉ seen))).length := by
  induction l with
  | nil => simp at hmem
  | cons a l ih =>
    by_cases ha : a = u
    · subst ha
      have h1 : (decide (a ∉ a :: seen)) = false := by simp
      have h2 : (decide (a ∉ seen)) = true := by simpa using hnot
      simp only [List.filter_cons, h1, h2]
      refine Nat.lt_succ_of_le ?_
      apply List.Sublist.length_le
      apply List.monotone_filter_right
      intro x hx
      simp only [decide_eq_true_eq, List.mem_cons, not_or] at hx ⊢
      exact hx.2
    · have hmem' : u ∈ l := by
        rcases List.mem_cons.1 hmem with h | h
        · exact absurd h.symm ha
        · exact h
      have heq : (decide (a ∉ u :: seen)) = (decide (a ∉ seen)) := by
        by_cases haseen : a ∈ seen <;> simp [haseen, ha]
      simp only [List.filter_cons, heq]
      cases hcase : (decide (a ∉ seen)) with
      | false => exact ih hmem'
      | true => simpa using ih hmem'

/-- Inserting an unseen document-map key strictly shrinks the number of
unseen documents. -/
theorem unseenCount_lt_of_mem {dm : List (Url × DocumentData)} {u : Url} {seen : List Url}
    (hmem : u ∈ dm.map Prod.fst) (hnot : u ∉ seen) :
    unseenCount dm (u :: seen) < unseenCount dm seen :=
  filter_notMem_cons_lt hmem hnot

/-- Lexicographic decrease from a weak decrease on the left and a strict
decrease on the right (supports the termination argument). -/
theorem lex_of_le_of_lt {a a' b b' : Nat} (h1 : a' ≤ a) (h2 : b' < b) :
    Prod.Lex (· < ·) (· < ·) (a', b') (a, b) := by
  rcases Nat.lt_or_ge a' a with h | h
  · exact Prod.Lex.left _ _ h
  · have : a' = a := Nat.le_antisymm h1 h
    subst this
    exact Prod.Lex.right _ h2

/-- The `Query module not found` diagnostic at an import's declared range. -/
def moduleNotFoundDiag (range : Range) : Diagnostic :=
  { range := range
    severity := WARNING_SEVERITY
    message := "Query module not found" }

mutual

/-- `get_diagnostics_recursively`: import diagnostics first, then the
pattern-structure diagnostics of the blocking worker, then the single-pass
AST scan pushing onto the same vector.  The seen-set is threaded through
the import walker; the second component lists the URIs this call inserted
into it (the mutable set afterwards is that list prepended to the input
seen-set). -/
def get_diagnostics_recursively (env : Env) (language_data : Option LanguageData)
    (uri : Url) (document : DocumentData) (seen : List Url) :
    List Diagnostic × List Url :=
  let imported := get_imported_query_diagnostics env language_data document.imported_uris seen
  let diagnostics := imported.1
    ++ pattern_diagnostics env.compile language_data document.patternDefs
  (scanLoop env.options language_data (validCapturesFor env uri) document.sites diagnostics,
   imported.2)
termination_by (unseenCount env.document_map seen, document.imported_uris.length + 1)

/-- `get_imported_query_diagnostics` (the Import Walker): walk the
ordered import list; an unresolved or absent target yields `Query module not
found`; a URI already seen is skipped; otherwise the URI is inserted into
the seen-set and the target's diagnostics are computed recursively, folded
into one `Issues in module` diagnostic when non-empty.  Returns the pushed
items and the URIs newly inserted into the seen-set. -/
def get_imported_query_diagnostics (env : Env) (language_data : Option LanguageData)
    (imported_uris : List ImportEntry) (seen : List Url) :
    List Diagnostic × List Url :=
  match imported_uris with
  | [] => ([], [])
  | entry :: rest =>
    let range : Range := ⟨⟨0, entry.startCol⟩, ⟨0, entry.endCol⟩⟩
    match entry.uri with
    | some uri =>
      if h : uri ∈ seen then
        get_imported_query_diagnostics env language_data rest seen
      else
        match hdoc : documentGet env.document_map uri with
        | some doc =>
          let inner := get_diagnostics_recursively env language_data uri doc (uri :: seen)
          let severity := foldSeverityLoop inner.1 4
          let inner_diags : List RelatedInfo :=
            inner.1.map fun diag =>
              { message := diag.message, uri := uri, range := diag.range }
          let items : List Diagnostic :=
            if inner_diags ≠ [] then
              [{ range := range
                 message := "Issues in module"
                 severity := some severity
                 relatedInformation := some inner_diags }]
            else []
          let more := get_imported_query_diagnostics env language_data rest
            (inner.2 ++ uri :: seen)
          (items ++ more.1, more.2 ++ inner.2 ++ [uri])
        | none =>
          let more := get_imported_query_diagnostics env language_data rest (uri :: seen)
          (moduleNotFoundDiag range :: more.1, more.2 ++ [uri])
    | none =>
      let more := get_imported_query_diagnostics env language_data rest seen
      (moduleNotFoundDiag range :: more.1, more.2)
termination_by (unseenCount env.document_map seen, imported_uris.length)
decreasing_by
  all_goals simp only [List.length_cons]
  all_goals first
    | exact Prod.Lex.right _ (Nat.lt_succ_self _)
    | exact Prod.Lex.left _ _
        (unseenCount_lt_of_mem (assocGet_mem_of_some hdoc) h)
    | · refine lex_of_le_of_lt ?_ (Nat.lt_succ_self _)
        exact le_trans (unseenCount_le_of_subset (List.subset_append_right _ _))
          (Nat.le_of_lt (unseenCount_lt_of_mem (assocGet_mem_of_some hdoc) h))
    | · refine lex_of_le_of_lt ?_ (Nat.lt_succ_self _)
        exact unseenCount_le_of_subset (List.subset_cons_self _ _)

end

/-- `get_diagnostics`: the top-level entry, with a fresh seen-set. -/
def get_diagnostics (env : Env) (language_data : Option LanguageData)
    (uri : Url) (document : DocumentData) : List Diagnostic :=
  (get_diagnostics_recursively env language_data uri document []).1

/-- Classification of scan sites by whether their check reads the
language's introspection tables (symbols, fields, supertypes); used to
state the degradation property when language data is absent. -/
def requiresLanguageData : Site → Bool
  | .nodeNamed _ _ => true
  | .nodeAnonymous _ _ => true
  | .supertype _ _ _ _ => true
  | .field _ _ => true
  | _ => false

/-- The severities this engine ever attaches to a diagnostic: ERROR (1),
WARNING (2) or HINT (4); used to state the severity-aggregation claim. -/
def SevOk (d : Diagnostic) : Prop :=
  d.severity = some 1 ∨ d.severity = some 2 ∨ d.severity = some 4

/-! # Theorems -/

/-- Every entry of a reachable cache equals the fresh computation of its key. -/
lemma cacheReachable_entries_fresh {compile : String → String → Except QueryError Unit}
    {c : Cache} (h : CacheReachable compile c) :
    ∀ k v, cacheGet c k = some v → v = get_pattern_diagnostic (compile k.1) k.2 := by
  induction h with
  | empty => intro k v hv; simp [cacheGet] at hv
  | step c n t _ ih =>
    intro k v hv
    unfold get_pattern_diagnostic_cached at hv
    dsimp only at hv
    cases hget : cacheGet c (n, t) with
    | some cached =>
      rw [hget] at hv
      exact ih k v hv
    | none =>
      rw [hget] at hv
      dsimp [cacheGet] at hv
      by_cases hk : ((n, t) : String × String) = k
      · subst hk
        simp at hv
        subst hv
        rfl
      · simp [hk] at hv
        exact ih k v hv


/-- The `valid`-flag search succeeds exactly when some helper-query capture
text equals the site's text. -/
theorem textSearchLoop_iff (caps : List String) (t : String) :
    textSearchLoop caps t = true ↔ t ∈ caps := by
  induction caps with
  | nil => simp [textSearchLoop]
  | cons c rest ih =>
    rw [textSearchLoop]
    by_cases hc : c = t
    · simp [hc]
    · simp only [if_neg hc, ih, List.mem_cons]
      constructor
      · exact Or.inr
      · rintro (h | h)
        · exact absurd h.symm hc
        · exact h

/-- The scan loop appends each site's diagnostics to the accumulator, so
its result is the accumulator followed by the per-site lists flattened in
site order. -/
theorem scanLoop_eq_append (options : Options) (language_data : Option LanguageData)
    (valid_captures : Option (List String)) (sites : List Site) (acc : List Diagnostic) :
    scanLoop options language_data valid_captures sites acc
      = acc ++ sites.flatMap (siteDiagnostics options language_data valid_captures) := by
  induction sites generalizing acc with
  | nil => simp [scanLoop]
  | cons s rest ih =>
    rw [scanLoop, ih, List.flatMap_cons, List.append_assoc]

/-- C2: the pattern scan returns `some k` exactly when compiling the
pattern against the grammar fails with an error of kind `Structure` at
byte offset `k`; every other compilation outcome (success, or an error of
any other kind) yields `none`. -/
theorem pattern_scan_structure_iff (compile : String → Except QueryError Unit)
    (p : String) :
    ∀ k : Nat, get_pattern_diagnostic compile p = some k
      ↔ compile p = .error { kind := .Structure, offset := k } := by
  intro k
  unfold get_pattern_diagnostic
  cases h : compile p with
  | ok u => simp
  | error e =>
    cases e with
    | mk kind offset =>
      cases kind <;> simp

/-- C3: on any cache state reachable by prior calls of the cached scan, the
cached pattern scan returns the same optional byte offset as a fresh
compilation of the pattern text against the grammar. -/
theorem pattern_scan_cache_deterministic (compile : String → String → Except QueryError Unit)
    (n t : String) (c : Cache) (h : CacheReachable compile c) :
    (get_pattern_diagnostic_cached compile n t c).1
      = get_pattern_diagnostic (compile n) t := by
  unfold get_pattern_diagnostic_cached
  dsimp only
  cases hget : cacheGet c (n, t) with
  | none => rfl
  | some v =>
    exact cacheReachable_entries_fresh h (n, t) v hget

/-- Witness for C3: a concrete reachable cache state (one prior call, so
the second call for the same key is a cache hit) on which the cached and
fresh scans agree. -/
theorem pattern_scan_cache_deterministic_witness :
    (get_pattern_diagnostic_cached (fun _ _ => .error { kind := .Structure, offset := 7 })
        "gram" "(pat)"
        (get_pattern_diagnostic_cached (fun _ _ => .error { kind := .Structure, offset := 7 })
          "gram" "(pat)" []).2).1
      = get_pattern_diagnostic
          ((fun (_ _ : String) => (.error { kind := .Structure, offset := 7 } :
              Except QueryError Unit)) "gram") "(pat)" :=
  pattern_scan_cache_deterministic _ "gram" "(pat)" _
    (CacheReachable.step [] "gram" "(pat)" CacheReachable.empty)

/-- One request's diagnostics split as imports ++ pattern structure ++
AST scan (shared helper; the ordering claim restates it). -/
theorem diagnostics_recursively_concat (env : Env) (language_data : Option LanguageData)
    (uri : Url) (document : DocumentData) (seen : List Url) :
    (get_diagnostics_recursively env language_data uri document seen).1 =
      (get_imported_query_diagnostics env language_data document.imported_uris seen).1
        ++ pattern_diagnostics env.compile language_data document.patternDefs
        ++ document.sites.flatMap
            (siteDiagnostics env.options language_data (validCapturesFor env uri)) := by
  rw [get_diagnostics_recursively]
  dsimp only
  rw [scanLoop_eq_append, List.append_assoc]

/-- C4: the diagnostics of one request are exactly the concatenation, in
this order and with no deduplication or sorting, of the import diagnostics
(in import-list order), the pattern-structure diagnostics (in tree
traversal order over the top-level definitions), and the AST-scan
diagnostics (in query match order over the tagged sites). -/
theorem diagnostics_order_concat (env : Env) (language_data : Option LanguageData)
    (uri : Url) (document : DocumentData) (seen : List Url) :
    (get_diagnostics_recursively env language_data uri document seen).1 =
      (get_imported_query_diagnostics env language_data document.imported_uris seen).1
        ++ pattern_diagnostics env.compile language_data document.patternDefs
        ++ document.sites.flatMap
            (siteDiagnostics env.options language_data (validCapturesFor env uri)) :=
  diagnostics_recursively_concat env language_data uri document seen

/-- C5: the `Undeclared capture` diagnostic for a capture reference is
emitted exactly when no capture-definition site of the enclosing top-level
pattern has text equal to the reference's text (the leading `@` being part
of both texts); a reference matching some definition produces nothing. -/
theorem undeclared_capture_iff (options : Options) (language_data : Option LanguageData)
    (valid_captures : Option (List String)) (text : String) (range : Range)
    (enclosingDefs : List String) :
    siteDiagnostics options language_data valid_captures
        (.captureReference text range enclosingDefs)
      = if text ∈ enclosingDefs then []
        else [{ message := "Undeclared capture: \"" ++ text ++ "\""
                severity := ERROR_SEVERITY
                range := range }] := by
  rw [siteDiagnostics]
  by_cases hmem : text ∈ enclosingDefs
  · rw [if_pos ((textSearchLoop_iff _ _).2 hmem), if_pos hmem]
  · rw [if_neg (fun h => hmem ((textSearchLoop_iff _ _).1 h)), if_neg hmem]

/-- C6: when language data is absent, the pattern validator emits nothing
and every site check that reads the language tables (named/anonymous node
types, supertypes/subtypes, field names) emits nothing, while every other
site check is unaffected by the language data's presence. -/
theorem no_language_data_skips :
    (∀ (compile : String → String → Except QueryError Unit) (patternDefs : List PatternDef),
        pattern_diagnostics compile none patternDefs = [])
    ∧ (∀ (options : Options) (valid_captures : Option (List String)) (site : Site),
        requiresLanguageData site = true →
          siteDiagnostics options none valid_captures site = [])
    ∧ (∀ (options : Options) (valid_captures : Option (List String)) (site : Site)
        (ld : LanguageData),
        requiresLanguageData site = false →
          siteDiagnostics options none valid_captures site
            = siteDiagnostics options (some ld) valid_captures site) := by
  refine ⟨fun compile patternDefs => rfl, ?_, ?_⟩
  · intro options valid_captures site hreq
    cases site <;> simp_all [requiresLanguageData, siteDiagnostics]
  · intro options valid_captures site ld hreq
    cases site <;> simp_all [requiresLanguageData, siteDiagnostics]

/-- Witness for C6: the language-requiring named-node check is skipped and
the language-independent syntax-error check is unchanged when language data
is absent, at concrete sites. -/
theorem no_language_data_skips_witness :
    pattern_diagnostics (fun _ _ => .ok ()) none [] = []
    ∧ siteDiagnostics ⟨[], [], [], .Any, false⟩ none none
        (.nodeNamed "identifier" ⟨⟨0, 0⟩, ⟨0, 12⟩⟩) = []
    ∧ siteDiagnostics ⟨[], [], [], .Any, false⟩ none none (.error ⟨⟨0, 0⟩, ⟨0, 3⟩⟩)
        = siteDiagnostics ⟨[], [], [], .Any, false⟩
            (some ⟨"css", true, [], [], []⟩) none (.error ⟨⟨0, 0⟩, ⟨0, 3⟩⟩) :=
  ⟨no_language_data_skips.1 _ _,
   no_language_data_skips.2.1 _ _ _ rfl,
   no_language_data_skips.2.2 _ _ _ _ rfl⟩

/-- The URIs a walker invocation newly inserts into the seen-set are
pairwise distinct and were not in the incoming seen-set: every recursion
guard inserts its target before recursing, so no URI is processed twice. -/
theorem walker_newly_nodup (env : Env) (language_data : Option LanguageData) :
    ∀ (imported_uris : List ImportEntry) (seen : List Url),
      (get_imported_query_diagnostics env language_data imported_uris seen).2.Nodup
        ∧ ∀ u ∈ (get_imported_query_diagnostics env language_data imported_uris seen).2,
            u ∉ seen := by
  refine get_imported_query_diagnostics.induct env language_data
    (fun uri doc seen =>
      (get_diagnostics_recursively env language_data uri doc seen).2.Nodup
        ∧ ∀ u ∈ (get_diagnostics_recursively env language_data uri doc seen).2, u ∉ seen)
    (fun imported_uris seen =>
      (get_imported_query_diagnostics env language_data imported_uris seen).2.Nodup
        ∧ ∀ u ∈ (get_imported_query_diagnostics env language_data imported_uris seen).2,
            u ∉ seen)
    ?_ ?_ ?_ ?_ ?_ ?_
  · intro uri document seen ih
    rw [get_diagnostics_recursively]
    exact ih
  · intro seen
    rw [get_imported_query_diagnostics.eq_def]
    simp
  · intro seen entry rest uri he hmem ih
    have hstep : get_imported_query_diagnostics env language_data (entry :: rest) seen
        = get_imported_query_diagnostics env language_data rest seen := by
      rw [get_imported_query_diagnostics.eq_def]
      simp [he, hmem]
    rw [hstep]
    exact ih
  · intro seen entry rest uri he hnot doc hdoc inner ih1 ih2
    beta_reduce
    rw [get_imported_query_diagnostics.eq_def]
    simp only [he]
    rw [dif_neg hnot]
    split
    · next doc2 heq =>
      rw [hdoc] at heq
      injection heq with heq
      subst heq
      rw [List.nodup_append, List.nodup_append]
      simp only [List.mem_append]
      constructor
      · refine ⟨⟨ih2.1, ih1.1, ?_⟩, List.nodup_singleton uri, ?_⟩
        · intro u hu
          have := ih2.2 u hu
          simp only [List.mem_append, List.mem_cons] at this
          exact fun hmem2 => this (Or.inl hmem2)
        · intro u hu
          simp only [List.mem_singleton]
          rw [List.mem_append] at hu
          rcases hu with hu | hu
          · have := ih2.2 u hu
            simp only [List.mem_append, List.mem_cons] at this
            intro hequ
            exact this (Or.inr (Or.inl hequ))
          · have := ih1.2 u hu
            simp only [List.mem_cons] at this
            intro hequ
            exact this (Or.inl hequ)
      · intro u hu
        rcases hu with (hu | hu) | hu
        · have := ih2.2 u hu
          simp only [List.mem_append, List.mem_cons] at this
          exact fun hseen => this (Or.inr (Or.inr hseen))
        · have := ih1.2 u hu
          simp only [List.mem_cons] at this
          exact fun hseen => this (Or.inr hseen)
        · simp only [List.mem_singleton] at hu
          subst hu
          exact hnot
    · next heq =>
      rw [hdoc] at heq
      exact absurd heq (by simp)
  · intro seen entry rest uri he hnot hdoc ih
    beta_reduce
    rw [get_imported_query_diagnostics.eq_def]
    simp only [he]
    rw [dif_neg hnot]
    split
    · next doc2 heq =>
      rw [hdoc] at heq
      exact absurd heq (by simp)
    · next heq =>
      rw [List.nodup_append]
      constructor
      · refine ⟨ih.1, List.nodup_singleton uri, ?_⟩
        intro u hu
        have := ih.2 u hu
        simp only [List.mem_cons] at this
        simp only [List.mem_singleton]
        intro hequ
        exact this (Or.inl hequ)
      · intro u hu
        rw [List.mem_append] at hu
        simp only [List.mem_singleton] at hu
        rcases hu with hu | hu
        · have := ih.2 u hu
          simp only [List.mem_cons] at this
          exact fun hseen => this (Or.inr hseen)
        · subst hu
          exact hnot
  · intro seen entry rest he ih
    rw [get_imported_query_diagnostics.eq_def]
    simp only [he]
    exact ih

/-- C7: the Import Walker terminates on every finite import graph, cycles
included — witnessed by `get_imported_query_diagnostics` being accepted as
a well-founded recursion over the number of unseen document-map keys — and
within one top-level call no URI's diagnostics are recursively computed
twice: an import whose URI is already in the seen-set is skipped with no
diagnostic for that entry, and the URIs inserted into the seen-set (each
insertion immediately preceding its recursive computation) are pairwise
distinct. -/
theorem import_walker_terminates_once :
    (∀ (env : Env) (language_data : Option LanguageData) (s e : Nat) (uri : Url)
        (rest : List ImportEntry) (seen : List Url), uri ∈ seen →
        get_imported_query_diagnostics env language_data
            ({ startCol := s, endCol := e, uri := some uri } :: rest) seen
          = get_imported_query_diagnostics env language_data rest seen)
    ∧ (∀ (env : Env) (language_data : Option LanguageData)
        (imported_uris : List ImportEntry) (seen : List Url),
        (get_imported_query_diagnostics env language_data imported_uris seen).2.Nodup) := by
  constructor
  · intro env language_data s e uri rest seen hmem
    rw [get_imported_query_diagnostics.eq_def]
    simp [hmem]
  · intro env language_data imported_uris seen
    exact (walker_newly_nodup env language_data imported_uris seen).1

/-- Witness for C7: a concrete already-seen import is skipped outright. -/
theorem import_walker_terminates_once_witness :
    get_imported_query_diagnostics
        ⟨fun _ _ => .ok (), fun _ => none, [], ⟨[], [], [], .Any, false⟩⟩ none
        [{ startCol := 10, endCol := 13, uri := some "css" }] ["css"]
      = get_imported_query_diagnostics
          ⟨fun _ _ => .ok (), fun _ => none, [], ⟨[], [], [], .Any, false⟩⟩ none [] ["css"] :=
  import_walker_terminates_once.1 _ none 10 13 "css" [] ["css"] (by simp)

/-- The severity fold equals a left fold of `min` over the severities the
inner diagnostics carry, in order. -/
theorem foldSeverityLoop_eq_foldl (diags : List Diagnostic) (a : Nat) :
    foldSeverityLoop diags a = (diags.filterMap Diagnostic.severity).foldl min a := by
  induction diags generalizing a with
  | nil => rfl
  | cons d rest ih =>
    rw [foldSeverityLoop]
    cases hd : d.severity with
    | some sev => simp [List.filterMap_cons, hd, ih]
    | none => simp [List.filterMap_cons, hd, ih]

/-- A `min`-fold lands on its initial value or on a list element. -/
theorem foldl_min_mem (l : List Nat) (a : Nat) : l.foldl min a ∈ a :: l := by
  induction l generalizing a with
  | nil => simp
  | cons x rest ih =>
    rw [List.foldl_cons]
    rcases List.mem_cons.1 (ih (min a x)) with h | h
    · rw [h]
      rcases min_choice a x with hc | hc <;> rw [hc] <;> simp
    · exact List.mem_cons.2 (Or.inr (List.mem_cons.2 (Or.inr h)))

/-- A `min`-fold is bounded by its initial value. -/
theorem foldl_min_le_init (l : List Nat) (a : Nat) : l.foldl min a ≤ a := by
  induction l generalizing a with
  | nil => exact Nat.le_refl a
  | cons x rest ih =>
    rw [List.foldl_cons]
    exact Nat.le_trans (ih (min a x)) (Nat.min_le_left a x)

/-- A `min`-fold is bounded by every list element. -/
theorem foldl_min_le (l : List Nat) (a : Nat) : ∀ x ∈ l, l.foldl min a ≤ x := by
  induction l generalizing a with
  | nil => intro x hx; simp at hx
  | cons y rest ih =>
    intro x hx
    rw [List.foldl_cons]
    rcases List.mem_cons.1 hx with h | h
    · subst h
      exact Nat.le_trans (foldl_min_le_init rest (min a x)) (Nat.min_le_right a x)
    · exact ih (min a y) x h

/-- Every diagnostic the parameter loop pushes is a WARNING. -/
theorem validateParamsLoop_warning (params : List Param) (specs : List PredicateParameter)
    (prev : PredicateParameter) :
    ∀ d ∈ (validateParamsLoop params specs prev).1, d.severity = WARNING_SEVERITY := by
  induction params generalizing specs prev with
  | nil => intro d hd; simp [validateParamsLoop] at hd
  | cons p rest ih =>
    intro d hd
    rw [validateParamsLoop] at hd
    by_cases hm : p.isMissing
    · simp [hm] at hd
    · simp only [hm, Bool.false_eq_true, if_false] at hd
      cases specs with
      | cons spec specs' =>
        simp only [List.mem_append] at hd
        rcases hd with hd | hd
        · split at hd
          · simp only [List.mem_singleton] at hd
            subst hd
            rfl
          · simp at hd
        · exact ih specs' spec d hd
      | nil =>
        dsimp only at hd
        split at hd
        · simp only [List.mem_append, List.mem_singleton] at hd
          rcases hd with hd | hd
          · subst hd; rfl
          · exact ih [] prev d hd
        · simp only [List.mem_append] at hd
          rcases hd with hd | hd
          · split at hd
            · simp only [List.mem_singleton] at hd
              subst hd
              rfl
            · simp at hd
          · exact ih [] prev d hd

/-- Every diagnostic the predicate validator pushes is a WARNING. -/
theorem validate_predicate_warning (params : List Param)
    (predicate_params : List PredicateParameter) (params_range call_range : Range) :
    ∀ d ∈ validate_predicate params predicate_params params_range call_range,
      d.severity = WARNING_SEVERITY := by
  intro d hd
  rw [validate_predicate.eq_def] at hd
  cases predicate_params with
  | nil =>
    simp only [List.mem_singleton] at hd
    subst hd
    rfl
  | cons first restSpecs =>
    simp only [List.mem_append] at hd
    rcases hd with hd | hd
    · exact validateParamsLoop_warning _ _ _ d hd
    · split at hd
      · simp only [List.mem_singleton] at hd
        subst hd
        rfl
      · simp at hd

/-- Every diagnostic the pattern validator pushes is an ERROR. -/
theorem pattern_diagnostics_error (compile : String → String → Except QueryError Unit)
    (language_data : Option LanguageData) (patternDefs : List PatternDef) :
    ∀ d ∈ pattern_diagnostics compile language_data patternDefs,
      d.severity = ERROR_SEVERITY := by
  intro d hd
  rw [pattern_diagnostics.eq_def] at hd
  split at hd
  · split at hd
    · rw [List.mem_filterMap] at hd
      obtain ⟨pd, _, heq⟩ := hd
      split at heq
      · injection heq with heq
        subst heq
        rfl
      · exact absurd heq (by simp)
    · simp at hd
  · simp at hd

/-- Every diagnostic a site check pushes carries severity ERROR, WARNING or
HINT. -/
theorem siteDiagnostics_sevOk (options : Options) (language_data : Option LanguageData)
    (valid_captures : Option (List String)) (site : Site) :
    ∀ d ∈ siteDiagnostics options language_data valid_captures site, SevOk d := by
  intro d hd
  cases site <;>
    rw [siteDiagnostics.eq_def] at hd <;>
    dsimp only at hd <;>
    repeat' split at hd
  all_goals
    first
      | (simp only [List.mem_singleton] at hd
         subst hd
         simp [SevOk, ERROR_SEVERITY, WARNING_SEVERITY, HINT_SEVERITY]
         done)
      | (simp at hd
         done)
      | exact Or.inr (Or.inl (validate_predicate_warning _ _ _ _ d hd))

/-- Every diagnostic the engine emits (recursively, imports included)
carries severity ERROR, WARNING or HINT. -/
theorem walker_sevOk (env : Env) (language_data : Option LanguageData) :
    ∀ (imported_uris : List ImportEntry) (seen : List Url),
      ∀ d ∈ (get_imported_query_diagnostics env language_data imported_uris seen).1,
        SevOk d := by
  refine get_imported_query_diagnostics.induct env language_data
    (fun uri doc seen =>
      ∀ d ∈ (get_diagnostics_recursively env language_data uri doc seen).1, SevOk d)
    (fun imported_uris seen =>
      ∀ d ∈ (get_imported_query_diagnostics env language_data imported_uris seen).1, SevOk d)
    ?_ ?_ ?_ ?_ ?_ ?_
  · intro uri document seen ih d hd
    rw [diagnostics_recursively_concat] at hd
    rw [List.append_assoc, List.mem_append, List.mem_append] at hd
    rcases hd with hd | hd | hd
    · exact ih d hd
    · exact Or.inl (pattern_diagnostics_error _ _ _ d hd)
    · rw [List.mem_flatMap] at hd
      obtain ⟨site, _, hmem⟩ := hd
      exact siteDiagnostics_sevOk _ _ _ site d hmem
  · intro seen d hd
    rw [get_imported_query_diagnostics.eq_def] at hd
    simp at hd
  · intro seen entry rest uri he hmem ih d hd
    rw [get_imported_query_diagnostics.eq_def] at hd
    simp only [he, dif_pos hmem] at hd
    exact ih d hd
  · intro seen entry rest uri he hnot doc hdoc inner ih1 ih2
    beta_reduce
    intro d hd
    rw [get_imported_query_diagnostics.eq_def] at hd
    simp only [he] at hd
    rw [dif_neg hnot] at hd
    split at hd
    · next doc2 heq =>
      rw [hdoc] at heq
      injection heq with heq
      subst heq
      dsimp only at hd
      rw [List.mem_append] at hd
      rcases hd with hd | hd
      · split at hd
        · simp only [List.mem_singleton] at hd
          subst hd
          have hfold := foldl_min_mem
            ((get_diagnostics_recursively env language_data uri doc (uri :: seen)).1.filterMap
              Diagnostic.severity) 4
          rw [← foldSeverityLoop_eq_foldl] at hfold
          rcases List.mem_cons.1 hfold with h4 | hmem4
          · rw [SevOk]
            dsimp only
            rw [h4]
            simp
          · rw [List.mem_filterMap] at hmem4
            obtain ⟨d0, hd0, hsev⟩ := hmem4
            have := ih1 d0 hd0
            rw [SevOk] at this ⊢
            dsimp only
            rw [hsev] at this
            rcases this with h | h | h <;>
              first
                | exact Or.inl (by rw [← h])
                | exact Or.inr (Or.inl (by rw [← h]))
                | exact Or.inr (Or.inr (by rw [← h]))
        · simp at hd
      · exact ih2 d hd
    · next heq =>
      rw [hdoc] at heq
      exact absurd heq (by simp)
  · intro seen entry rest uri he hnot hdoc ih d hd
    beta_reduce
    rw [get_imported_query_diagnostics.eq_def] at hd
    simp only [he] at hd
    rw [dif_neg hnot] at hd
    split at hd
    · next doc2 heq =>
      rw [hdoc] at heq
      exact absurd heq (by simp)
    · next heq =>
      dsimp only at hd
      rcases List.mem_cons.1 hd with hd | hd
      · subst hd
        exact Or.inr (Or.inl rfl)
      · exact ih d hd
  · intro seen entry rest he ih d hd
    rw [get_imported_query_diagnostics.eq_def] at hd
    simp only [he] at hd
    rcases List.mem_cons.1 hd with hd | hd
    · subst hd
      exact Or.inr (Or.inl rfl)
    · exact ih d hd

/-- Severity classification lifted to a whole recursive diagnostics call. -/
theorem diagnostics_recursively_sevOk (env : Env) (language_data : Option LanguageData)
    (uri : Url) (document : DocumentData) (seen : List Url) :
    ∀ d ∈ (get_diagnostics_recursively env language_data uri document seen).1, SevOk d := by
  intro d hd
  rw [diagnostics_recursively_concat] at hd
  rw [List.append_assoc, List.mem_append, List.mem_append] at hd
  rcases hd with hd | hd | hd
  · exact walker_sevOk env language_data _ _ d hd
  · exact Or.inl (pattern_diagnostics_error _ _ _ d hd)
  · rw [List.mem_flatMap] at hd
    obtain ⟨site, _, hmem⟩ := hd
    exact siteDiagnostics_sevOk _ _ _ site d hmem

/-- Over diagnostics whose severities are all drawn from
{ERROR, WARNING, HINT}, the severity fold computes the most severe
severity observed, defaulting to HINT when no diagnostic carries one. -/
theorem foldSeverity_most_severe (diags : List Diagnostic)
    (hok : ∀ d ∈ diags, SevOk d) :
    (diags.filterMap Diagnostic.severity = [] ∧ foldSeverityLoop diags 4 = 4)
    ∨ (foldSeverityLoop diags 4 ∈ diags.filterMap Diagnostic.severity
        ∧ ∀ x ∈ diags.filterMap Diagnostic.severity, foldSeverityLoop diags 4 ≤ x) := by
  have hobs_le : ∀ x ∈ diags.filterMap Diagnostic.severity, x ≤ 4 := by
    intro x hx
    rw [List.mem_filterMap] at hx
    obtain ⟨d0, hd0, hsev⟩ := hx
    rcases hok d0 hd0 with h | h | h <;>
      (rw [hsev] at h; injection h with h; omega)
  rw [foldSeverityLoop_eq_foldl]
  cases hobs : diags.filterMap Diagnostic.severity with
  | nil => left; exact ⟨rfl, rfl⟩
  | cons x0 rest =>
    right
    rw [← hobs]
    refine ⟨?_, foldl_min_le _ 4⟩
    rcases List.mem_cons.1 (foldl_min_mem (diags.filterMap Diagnostic.severity) 4) with h4 | hm
    · have hx0 : x0 ∈ diags.filterMap Diagnostic.severity := by rw [hobs]; simp
      have h1 : (diags.filterMap Diagnostic.severity).foldl min 4 ≤ x0 :=
        foldl_min_le _ 4 x0 hx0
      have h2 : x0 ≤ 4 := hobs_le x0 hx0
      rw [h4]
      rw [h4] at h1
      have : x0 = 4 := Nat.le_antisymm h2 h1
      rw [← this]
      exact hx0
    · exact hm

/-- C1: an import whose recursively computed diagnostic list is non-empty
yields exactly one `Issues in module` diagnostic at the importing range,
and its severity is the most severe severity observed among the inner
diagnostics — in LSP numerals the minimum, since ERROR (1) is more severe
than WARNING (2) and WARNING than HINT (4) — defaulting to HINT when no
inner diagnostic carries a severity. -/
theorem imports_issue_most_severe (env : Env) (language_data : Option LanguageData)
    (s e : Nat) (uri : Url) (rest : List ImportEntry) (seen : List Url)
    (doc : DocumentData)
    (hnot : uri ∉ seen)
    (hdoc : documentGet env.document_map uri = some doc)
    (hne : (get_diagnostics_recursively env language_data uri doc (uri :: seen)).1 ≠ []) :
    ((get_imported_query_diagnostics env language_data
        ({ startCol := s, endCol := e, uri := some uri } :: rest) seen).1 =
      { range := ⟨⟨0, s⟩, ⟨0, e⟩⟩
        message := "Issues in module"
        severity := some (foldSeverityLoop
          (get_diagnostics_recursively env language_data uri doc (uri :: seen)).1 4)
        relatedInformation := some
          ((get_diagnostics_recursively env language_data uri doc (uri :: seen)).1.map
            fun diag => { uri := uri, range := diag.range, message := diag.message }) }
      :: (get_imported_query_diagnostics env language_data rest
            ((get_diagnostics_recursively env language_data uri doc (uri :: seen)).2
              ++ uri :: seen)).1)
    ∧ (((get_diagnostics_recursively env language_data uri doc
          (uri :: seen)).1.filterMap Diagnostic.severity = []
        ∧ foldSeverityLoop
            (get_diagnostics_recursively env language_data uri doc (uri :: seen)).1 4 = 4)
      ∨ (foldSeverityLoop
            (get_diagnostics_recursively env language_data uri doc (uri :: seen)).1 4
          ∈ (get_diagnostics_recursively env language_data uri doc
              (uri :: seen)).1.filterMap Diagnostic.severity
        ∧ ∀ x ∈ (get_diagnostics_recursively env language_data uri doc
              (uri :: seen)).1.filterMap Diagnostic.severity,
            foldSeverityLoop
              (get_diagnostics_recursively env language_data uri doc (uri :: seen)).1 4 ≤ x)) := by
  constructor
  · rw [get_imported_query_diagnostics.eq_def]
    simp only
    rw [dif_neg hnot]
    split
    · next doc2 heq =>
      rw [hdoc] at heq
      injection heq with heq
      subst heq
      dsimp only
      rw [if_pos]
      · rw [List.singleton_append]
      · simp only [ne_eq, List.map_eq_nil_iff]
        exact hne
    · next heq =>
      rw [hdoc] at heq
      exact absurd heq (by simp)
  · exact foldSeverity_most_severe _
      (diagnostics_recursively_sevOk env language_data uri doc (uri :: seen))

/-- Witness for C1: a one-import document map whose target carries a single
syntax error produces exactly one `Issues in module` diagnostic with
severity ERROR. -/
theorem imports_issue_most_severe_witness :
    (get_imported_query_diagnostics
        ⟨fun _ _ => .ok (), fun _ => none,
         [("css", ⟨[], [], [Site.error ⟨⟨0, 0⟩, ⟨0, 1⟩⟩]⟩)],
         ⟨[], [], [], .Any, false⟩⟩ none
        [{ startCol := 10, endCol := 13, uri := some "css" }] []).1
      = [{ range := ⟨⟨0, 10⟩, ⟨0, 13⟩⟩
           message := "Issues in module"
           severity := some 1
           relatedInformation := some
             [{ uri := "css", range := ⟨⟨0, 0⟩, ⟨0, 1⟩⟩, message := "Invalid syntax" }] }] := by
  have hinner : get_diagnostics_recursively
      ⟨fun _ _ => .ok (), fun _ => none,
       [("css", ⟨[], [], [Site.error ⟨⟨0, 0⟩, ⟨0, 1⟩⟩]⟩)],
       ⟨[], [], [], .Any, false⟩⟩ none
      "css" ⟨[], [], [Site.error ⟨⟨0, 0⟩, ⟨0, 1⟩⟩]⟩ ["css"]
      = ([{ message := "Invalid syntax", severity := ERROR_SEVERITY,
            range := ⟨⟨0, 0⟩, ⟨0, 1⟩⟩ }], []) := by
    rw [get_diagnostics_recursively, get_imported_query_diagnostics.eq_def]
    rfl
  have h := imports_issue_most_severe
    ⟨fun _ _ => .ok (), fun _ => none,
     [("css", ⟨[], [], [Site.error ⟨⟨0, 0⟩, ⟨0, 1⟩⟩]⟩)],
     ⟨[], [], [], .Any, false⟩⟩ none
    10 13 "css" [] [] ⟨[], [], [Site.error ⟨⟨0, 0⟩, ⟨0, 1⟩⟩]⟩
    (by simp) rfl (by rw [hinner]; simp)
  rw [h.1, hinner]
  rw [get_imported_query_diagnostics.eq_def]
  rfl

/-- With the spec iterator exhausted and a variadic previous spec, the
parameter loop checks every remaining (non-missing) parameter against that
spec. -/
theorem validateParamsLoop_variadic_nil (params : List Param) (prev : PredicateParameter)
    (hvar : prev.arity = PredicateParameterArity.Variadic)
    (hnomiss : ∀ p ∈ params, p.isMissing = false) :
    validateParamsLoop params [] prev =
      (params.filterMap fun p =>
        if param_type_mismatch (decide (p.kind = "capture")) prev then
          some (type_mismatch_diag (decide (p.kind = "capture")) p prev)
        else none, []) := by
  induction params with
  | nil => rfl
  | cons p rest ih =>
    rw [validateParamsLoop]
    rw [hnomiss p (List.mem_cons_self p rest)]
    simp only [Bool.false_eq_true, if_false]
    rw [if_neg (by rw [hvar]; simp)]
    rw [ih (fun q hq => hnomiss q (List.mem_cons_of_mem p hq))]
    rw [List.filterMap_cons]
    split <;> simp

/-- The parameter loop over a spec list ending in a variadic spec, with at
least as many (non-missing) parameters as specs: one positional check per
zipped pair, then every extra parameter checked against the last spec; the
spec iterator is fully consumed. -/
theorem validateParamsLoop_variadic (specs0 : List PredicateParameter)
    (last : PredicateParameter) (params : List Param) (prev : PredicateParameter)
    (hvar : last.arity = PredicateParameterArity.Variadic)
    (hnomiss : ∀ p ∈ params, p.isMissing = false)
    (hlen : specs0.length + 1 ≤ params.length) :
    validateParamsLoop params (specs0 ++ [last]) prev =
      (((params.zip (specs0 ++ [last])).filterMap fun pq =>
          if param_type_mismatch (decide (pq.1.kind = "capture")) pq.2 then
            some (type_mismatch_diag (decide (pq.1.kind = "capture")) pq.1 pq.2)
          else none)
        ++ ((params.drop (specs0.length + 1)).filterMap fun p =>
          if param_type_mismatch (decide (p.kind = "capture")) last then
            some (type_mismatch_diag (decide (p.kind = "capture")) p last)
          else none),
       []) := by
  induction specs0 generalizing params prev with
  | nil =>
    cases params with
    | nil => simp at hlen
    | cons p rest =>
      rw [validateParamsLoop]
      rw [hnomiss p (List.mem_cons_self p rest)]
      simp only [Bool.false_eq_true, if_false, List.nil_append]
      rw [validateParamsLoop_variadic_nil rest last hvar
        (fun q hq => hnomiss q (List.mem_cons_of_mem p hq))]
      simp only [List.zip_cons_cons, List.zip_nil_right, List.filterMap_cons,
        List.filterMap_nil, List.length_nil, Nat.zero_add, List.drop_succ_cons,
        List.drop_zero]
      split <;> simp
  | cons s specs0' ih =>
    cases params with
    | nil => simp at hlen
    | cons p rest =>
      rw [validateParamsLoop]
      rw [hnomiss p (List.mem_cons_self p rest)]
      simp only [Bool.false_eq_true, if_false, List.cons_append]
      rw [ih rest s (fun q hq => hnomiss q (List.mem_cons_of_mem p hq))
        (by simpa using Nat.succ_le_succ_iff.1 (by simpa using hlen))]
      simp only [List.zip_cons_cons, List.filterMap_cons, List.length_cons,
        List.drop_succ_cons]
      split <;> simp

/-- A type-mismatch diagnostic never carries an `Unexpected parameter`
message. -/
theorem type_mismatch_message_ne (b : Bool) (x : Param) (sp : PredicateParameter)
    (q : Param) :
    (type_mismatch_diag b x sp).message ≠ "Unexpected parameter: \"" ++ q.text ++ "\"" := by
  rw [type_mismatch_diag]
  intro h
  have hdata := congrArg String.data h
  simp [String.data_append] at hdata

/-- Counterexample for C8: a missing parameter node breaks out of the
parameter loop, so a mismatching parameter beyond the spec list that
follows a missing node yields no diagnostic at all, although it lies in
the variadic tail and mismatches the last spec's type. -/
theorem variadic_missing_break_cex :
    validate_predicate
        [{ isMissing := false, kind := "capture", text := "@v", range := ⟨⟨1, 0⟩, ⟨1, 2⟩⟩ },
         { isMissing := true, kind := "identifier", text := "", range := ⟨⟨1, 3⟩, ⟨1, 3⟩⟩ },
         { isMissing := false, kind := "capture", text := "@w", range := ⟨⟨1, 4⟩, ⟨1, 6⟩⟩ }]
        [{ type_ := .capture, arity := .Required }, { type_ := .string, arity := .Variadic }]
        ⟨⟨1, 0⟩, ⟨1, 6⟩⟩ ⟨⟨1, 0⟩, ⟨1, 6⟩⟩ = []
    ∧ param_type_mismatch (decide (("capture" : String) = "capture"))
        { type_ := .string, arity := .Variadic } = true := by
  constructor
  · rfl
  · rfl

/-- C8 (amended): for a recognized predicate or directive whose last
parameter spec is variadic, every call parameter beyond the spec list —
provided no parameter node is missing (a missing node breaks the loop) —
is checked against that last spec's type, each mismatch yielding the
type-mismatch WARNING at that parameter's node, and no
`Unexpected parameter` warning is emitted. -/
theorem variadic_tail_checked (specs0 : List PredicateParameter)
    (last : PredicateParameter) (params : List Param) (params_range call_range : Range)
    (hvar : last.arity = PredicateParameterArity.Variadic)
    (hnomiss : ∀ p ∈ params, p.isMissing = false)
    (hlen : specs0.length + 1 ≤ params.length) :
    validate_predicate params (specs0 ++ [last]) params_range call_range =
      ((params.zip (specs0 ++ [last])).filterMap fun pq =>
        if param_type_mismatch (decide (pq.1.kind = "capture")) pq.2 then
          some (type_mismatch_diag (decide (pq.1.kind = "capture")) pq.1 pq.2)
        else none)
      ++ ((params.drop (specs0.length + 1)).filterMap fun p =>
        if param_type_mismatch (decide (p.kind = "capture")) last then
          some (type_mismatch_diag (decide (p.kind = "capture")) p last)
        else none)
    ∧ ∀ d ∈ validate_predicate params (specs0 ++ [last]) params_range call_range,
        ∀ q : Param, d.message ≠ "Unexpected parameter: \"" ++ q.text ++ "\"" := by
  have hmain : validate_predicate params (specs0 ++ [last]) params_range call_range =
      ((params.zip (specs0 ++ [last])).filterMap fun pq =>
        if param_type_mismatch (decide (pq.1.kind = "capture")) pq.2 then
          some (type_mismatch_diag (decide (pq.1.kind = "capture")) pq.1 pq.2)
        else none)
      ++ ((params.drop (specs0.length + 1)).filterMap fun p =>
        if param_type_mismatch (decide (p.kind = "capture")) last then
          some (type_mismatch_diag (decide (p.kind = "capture")) p last)
        else none) := by
    rw [validate_predicate.eq_def]
    cases specs0 with
    | nil =>
      simp only [List.nil_append]
      have hloop := validateParamsLoop_variadic [] last params last hvar hnomiss
        (by simpa using hlen)
      simp only [List.nil_append] at hloop
      rw [hloop]
      simp
    | cons s specs0' =>
      simp only [List.cons_append]
      rw [show s :: (specs0' ++ [last]) = (s :: specs0') ++ [last] from rfl]
      rw [validateParamsLoop_variadic (s :: specs0') last params s hvar hnomiss hlen]
      simp
  refine ⟨hmain, ?_⟩
  intro d hd q
  rw [hmain, List.mem_append] at hd
  rcases hd with hd | hd <;>
    (rw [List.mem_filterMap] at hd
     obtain ⟨w, _, hw⟩ := hd
     split at hw
     · injection hw with hw
       rw [← hw]
       exact type_mismatch_message_ne _ _ _ q
     · exact absurd hw (by simp))

/-- Witness for C8 (amended): a five-token `#set!`-style call with a
`capture required, string variadic` schema flags only its trailing capture
argument. -/
theorem variadic_tail_checked_witness :
    validate_predicate
        [{ isMissing := false, kind := "capture", text := "@v", range := ⟨⟨1, 0⟩, ⟨1, 2⟩⟩ },
         { isMissing := false, kind := "identifier", text := "self", range := ⟨⟨1, 3⟩, ⟨1, 7⟩⟩ },
         { isMissing := false, kind := "capture", text := "@w", range := ⟨⟨1, 8⟩, ⟨1, 10⟩⟩ }]
        ([{ type_ := .capture, arity := .Required }] ++ [{ type_ := .string, arity := .Variadic }])
        ⟨⟨1, 0⟩, ⟨1, 10⟩⟩ ⟨⟨1, 0⟩, ⟨1, 10⟩⟩
      = [type_mismatch_diag true
          { isMissing := false, kind := "capture", text := "@w", range := ⟨⟨1, 8⟩, ⟨1, 10⟩⟩ }
          { type_ := .string, arity := .Variadic }] := by
  have h := variadic_tail_checked
    [{ type_ := .capture, arity := .Required }] { type_ := .string, arity := .Variadic }
    [{ isMissing := false, kind := "capture", text := "@v", range := ⟨⟨1, 0⟩, ⟨1, 2⟩⟩ },
     { isMissing := false, kind := "identifier", text := "self", range := ⟨⟨1, 3⟩, ⟨1, 7⟩⟩ },
     { isMissing := false, kind := "capture", text := "@w", range := ⟨⟨1, 8⟩, ⟨1, 10⟩⟩ }]
    ⟨⟨1, 0⟩, ⟨1, 10⟩⟩ ⟨⟨1, 0⟩, ⟨1, 10⟩⟩ rfl (by decide) (by decide)
  rw [h.1]
  rfl

/-- Counterexample for C9: for a triggering string node whose range starts
at character 0, the reported start column is not one column to the left
(there is none) — the `u32` subtraction wraps to `2^32 - 1`. -/
theorem string_hint_underflow_cex :
    (siteDiagnostics ⟨[], [], [], .PreferUnquoted, false⟩ none none
        (.string "bar" ⟨⟨0, 0⟩, ⟨0, 3⟩⟩ 0)).map (fun d => d.range)
      = [⟨⟨0, 4294967295⟩, ⟨0, 4⟩⟩]
    ∧ ¬(4294967295 + 1 = 0) := by
  constructor
  · rfl
  · simp

/-- C9 (amended): the `Unnecessary quotations` hint reports the string
node's range extended outward by one column on each side whenever the
node's start character is at least 1 (and the columns are in `u32` range);
a node starting at character 0 would instead wrap the start column to
`2^32 - 1`. -/
theorem string_hint_range_extends (options : Options)
    (language_data : Option LanguageData) (valid_captures : Option (List String))
    (text : String) (l1 c1 l2 c2 : Nat)
    (hstyle : options.string_argument_style = StringArgumentStyle.PreferUnquoted)
    (hmatch : identifierRegexMatch text = true)
    (hc1 : 1 ≤ c1) (hc1m : c1 < U32_MOD) (hc2m : c2 + 1 < U32_MOD) :
    siteDiagnostics options language_data valid_captures
        (.string text ⟨⟨l1, c1⟩, ⟨l2, c2⟩⟩ 0)
      = [{ message := "Unnecessary quotations (fix available)"
           range := ⟨⟨l1, c1 - 1⟩, ⟨l2, c2 + 1⟩⟩
           severity := HINT_SEVERITY
           data := some CodeActions.Trim }] := by
  have h1 : u32SubOne c1 = c1 - 1 := by
    rw [u32SubOne]
    have heq : c1 + (U32_MOD - 1) = U32_MOD + (c1 - 1) := by
      rw [U32_MOD] at hc1m ⊢
      omega
    rw [heq, Nat.add_mod_left]
    exact Nat.mod_eq_of_lt (by rw [U32_MOD] at hc1m ⊢; omega)
  have h2 : u32AddOne c2 = c2 + 1 := by
    rw [u32AddOne]
    exact Nat.mod_eq_of_lt hc2m
  rw [siteDiagnostics.eq_def]
  dsimp only
  rw [if_neg (by simp [hstyle])]
  rw [if_neg (by simp [hmatch])]
  rw [h1, h2]

/-- Witness for C9 (amended): the string `bar` at columns 36–39 is
reported at columns 35–40, one column outward on each side. -/
theorem string_hint_range_extends_witness :
    siteDiagnostics ⟨[], [], [], .PreferUnquoted, false⟩ none none
        (.string "bar" ⟨⟨1, 36⟩, ⟨1, 39⟩⟩ 0)
      = [{ message := "Unnecessary quotations (fix available)"
           range := ⟨⟨1, 35⟩, ⟨1, 40⟩⟩
           severity := HINT_SEVERITY
           data := some CodeActions.Trim }] := by
  have h := string_hint_range_extends ⟨[], [], [], .PreferUnquoted, false⟩ none none
    "bar" 1 36 1 39 rfl (by decide) (by decide) (by decide) (by decide)
  exact h

end TsQueryLs
